import Mathlib

/-!
Shallow embedding of the operation-orchestration core of `src/gui.rs`
(an iced GUI application coordinating game-save backup and restoration).

The embedding models:
  * the `App` state (configuration, manifest, ongoing-operation guard,
    modal theme, per-screen result logs, root-editor rows, and the process
    working directory, which the source mutates via `std::env::set_current_dir`);
  * the `Message`-driven `App::update` function as a transition function
    `update : Env → App → Message → Option (App × List Message)`, where the
    returned message list models the batch of `Command`s dispatched by the
    handler (each per-game task is represented by the `BackupStep`/`RestoreStep`
    message it eventually delivers, and the trailing `Command::perform(async {}, Idle)`
    by a final `Message.idle`), and `none` models a Rust panic
    (out-of-bounds `Vec` indexing in the root-registry handlers);
  * external collaborators (`prepare_backup_target`, `scan_game_for_backup`,
    `scan_game_for_restoration`, `game_file_restoration_target`, path helpers,
    `app_dir`) as an `Env` record of pure functions. `config.save()`,
    `back_up_game` and `restore_game` are external side effects with no
    bearing on the `App` state and are not modeled.
  * the rendering of the result log (`GameList::view` / `GameListEntry::view`)
    and of the root editor (`RootEditor::view`), as pure functions returning
    the data the widgets would display; `itertools::sorted` and
    `sort_by_key` are modeled with `List.mergeSort` (both stable sorts, and
    Rust's byte-lexicographic `String` order agrees with codepoint order
    under UTF-8).

Hash sets of strings (`ScanInfo.found_files` etc.) are modeled as lists of
their elements; the source only ever tests emptiness and iterates them in
sorted order, so element order in the model is irrelevant to the results.
-/

namespace Ludusavi

/-- Store kind of a configured root (`Store` in the source). -/
inductive Store
  | steam
  | other
deriving DecidableEq

/-- One configured root: `RootsConfig { path, store }`. -/
structure RootsConfig where
  path : String
  store : Store
deriving DecidableEq

/-- Model of `config.backup` section. -/
structure BackupConfig where
  path : String
deriving DecidableEq

/-- Model of `config.restore` section. -/
structure RestoreConfig where
  path : String
deriving DecidableEq

/-- The application configuration (the parts the GUI core reads or edits). -/
structure Config where
  backup : BackupConfig
  restore : RestoreConfig
  roots : List RootsConfig
deriving DecidableEq

/-- Model of `SteamMetadata { id }`. -/
structure SteamMetadata where
  id : Option Nat
deriving DecidableEq

/-- A manifest game entry (only the field the orchestrator reads). -/
structure Game where
  steam : Option SteamMetadata
deriving DecidableEq

/-- Model of `ScanInfo { found_files, found_registry_keys }`; the hash sets are
modeled as lists of elements. -/
structure ScanInfo where
  foundFiles : List String
  foundRegistryKeys : List String
deriving DecidableEq

/-- The error taxonomy surfaced to the modal (the variants this core can
produce). -/
inductive Error
  | backupTargetInvalid
  | restorationSourceInvalid (path : String)
deriving DecidableEq

/-- Model of `OngoingOperation`: which operation currently holds the guard. -/
inductive OngoingOperation
  | backup
  | previewBackup
  | restore
  | previewRestore
deriving DecidableEq

/-- Model of `Screen`: which screen is displayed. -/
inductive Screen
  | backup
  | restore
deriving DecidableEq

/-- Model of `ModalTheme`: the modal currently shown, if any. -/
inductive ModalTheme
  | error (variant : Error)
  | confirmBackup
  | confirmRestore
deriving DecidableEq

/-- Model of `GameListEntry { name, files, registry_keys }`. -/
structure GameListEntry where
  name : String
  files : List String
  registryKeys : List String
deriving DecidableEq

/-- Model of `GameList { entries }` (the scroll widget state carries no data). -/
structure GameList where
  entries : List GameListEntry
deriving DecidableEq

/-- Model of `RootEditor { rows }`: each row is a pair of widget states carrying no
data, so a row is modeled as `Unit`. -/
structure RootEditor where
  rows : List Unit
deriving DecidableEq

/-- Model of `BackupScreenComponent` (data fields only; button/text-input widget
states carry no data). -/
structure BackupScreenComponent where
  totalGames : Nat
  log : GameList
  rootEditor : RootEditor
deriving DecidableEq

/-- Model of `RestoreScreenComponent` (data fields only). -/
structure RestoreScreenComponent where
  totalGames : Nat
  log : GameList
deriving DecidableEq

/-- The GUI `Message` enum. -/
inductive Message
  | idle
  | confirmBackupStart
  | backupStart
  | confirmRestoreStart
  | restoreStart
  | previewBackupStart
  | previewRestoreStart
  | backupStep (game : String) (info : ScanInfo)
  | restoreStep (game : String) (info : ScanInfo)
  | editedBackupTarget (text : String)
  | editedRestoreSource (text : String)
  | editedRootPath (index : Nat) (path : String)
  | editedRootStore (index : Nat) (store : Store)
  | addRoot
  | removeRoot (index : Nat)
  | switchScreenToRestore
  | switchScreenToBackup
deriving DecidableEq

/-- The external collaborators, as pure functions: `crate::path::absolute`,
`crate::path::normalize`, `crate::path::is_dir`, `prepare_backup_target`,
`app_dir`, `scan_game_for_backup`, `scan_game_for_restoration`, and
`game_file_restoration_target`. -/
structure Env where
  absolutePath : String → String
  normalizePath : String → String
  isDir : String → Bool
  prepareBackupTarget : String → Except Error Unit
  appDir : String
  scanGameForBackup : Game → String → List RootsConfig → String → Option Nat → ScanInfo
  scanGameForRestoration : String → String → ScanInfo
  gameFileRestorationTarget : String → Except Error String

/-- The `App` state. The manifest hash map is modeled as an association
list of (game name, game) pairs; `currentDir` models the process working
directory mutated through `std::env::set_current_dir`. -/
structure App where
  config : Config
  manifest : List (String × Game)
  operation : Option OngoingOperation
  screen : Screen
  modalTheme : Option ModalTheme
  originalWorkingDir : String
  currentDir : String
  backupScreen : BackupScreenComponent
  restoreScreen : RestoreScreenComponent
deriving DecidableEq

/-- The non-emptiness test `!info.found_files.is_empty() || !info.found_registry_keys.is_empty()`
used by the `BackupStep` and `RestoreStep` handlers. -/
def ScanInfo.nonEmpty (info : ScanInfo) : Bool :=
  !info.foundFiles.isEmpty || !info.foundRegistryKeys.isEmpty

/-- Model of `BackupScreenComponent::new`: pushes one (empty) editor row per
configured root. -/
def BackupScreenComponent.new (config : Config) : BackupScreenComponent :=
  { totalGames := 0
    log := { entries := [] }
    rootEditor := { rows := List.replicate config.roots.length () } }

/-- Model of `App::new` (the state-construction part of `Application::new`): the
config and manifest have been loaded by collaborators, possibly leaving an
error modal; the working directory at process start is recorded. -/
def App.new (config : Config) (manifest : List (String × Game))
    (modalTheme : Option ModalTheme) (initialDir : String) : App :=
  { config := config
    manifest := manifest
    operation := none
    screen := Screen.backup
    modalTheme := modalTheme
    originalWorkingDir := initialDir
    currentDir := initialDir
    backupScreen := BackupScreenComponent.new config
    restoreScreen := { totalGames := 0, log := { entries := [] } } }

/-- The `commands` vector built by the `BackupStart` / `PreviewBackupStart`
fan-out loops: one task per manifest entry, in manifest order, each
represented by the `BackupStep` message it delivers once its scan of the
root-registry snapshot completes. -/
def backupStepCommands (env : Env) (s : App) : List Message :=
  s.manifest.map (fun kg =>
    Message.backupStep kg.1
      (env.scanGameForBackup kg.2 kg.1 s.config.roots env.appDir
        (kg.2.steam.getD { id := none }).id))

/-- The `commands` vector built by the `RestoreStart` / `PreviewRestoreStart`
fan-out loops: one task per manifest entry, in manifest order. -/
def restoreStepCommands (env : Env) (s : App) (restorePath : String) : List Message :=
  s.manifest.map (fun kg =>
    Message.restoreStep kg.1 (env.scanGameForRestoration kg.1 restorePath))

/-- Model of `App::update`. Returns the successor state and the list of messages the
dispatched command batch will deliver (per-game task messages in manifest
order, followed by the `Idle` follow-up, exactly as the handlers build their
`commands` vectors). `none` models a panic from out-of-bounds `Vec`
indexing (`roots[index]`, `rows.remove(index)`, `roots.remove(index)`). -/
def update (env : Env) (s : App) : Message → Option (App × List Message)
  | Message.idle =>
      some ({ s with operation := none, modalTheme := none,
                     currentDir := s.originalWorkingDir }, [])
  | Message.confirmBackupStart =>
      some ({ s with modalTheme := some ModalTheme.confirmBackup }, [])
  | Message.confirmRestoreStart =>
      some ({ s with modalTheme := some ModalTheme.confirmRestore }, [])
  | Message.backupStart =>
      if s.operation.isSome then
        some (s, [])
      else
        let s1 := { s with
          backupScreen := { s.backupScreen with
            totalGames := 0, log := { entries := [] } },
          modalTheme := none }
        let backupPath := env.absolutePath s.config.backup.path
        match env.prepareBackupTarget backupPath with
        | Except.error e =>
            some ({ s1 with modalTheme := some (ModalTheme.error e) }, [])
        | Except.ok _ =>
            let s2 := { s1 with operation := some OngoingOperation.backup,
                                currentDir := env.appDir }
            some (s2, backupStepCommands env s ++ [Message.idle])
  | Message.previewBackupStart =>
      if s.operation.isSome then
        some (s, [])
      else
        let s1 := { s with
          operation := some OngoingOperation.previewBackup,
          backupScreen := { s.backupScreen with
            totalGames := 0, log := { entries := [] } },
          currentDir := env.appDir }
        some (s1, backupStepCommands env s ++ [Message.idle])
  | Message.restoreStart =>
      if s.operation.isSome then
        some (s, [])
      else
        let s1 := { s with
          restoreScreen := { totalGames := 0, log := { entries := [] } },
          modalTheme := none }
        let restorePath := env.normalizePath s.config.restore.path
        if env.isDir restorePath then
          let s2 := { s1 with operation := some OngoingOperation.restore }
          some (s2, restoreStepCommands env s restorePath ++ [Message.idle])
        else
          let err := ModalTheme.error (Error.restorationSourceInvalid restorePath)
          some ({ s1 with modalTheme := some err }, [])
  | Message.previewRestoreStart =>
      if s.operation.isSome then
        some (s, [])
      else
        let s1 := { s with
          restoreScreen := { totalGames := 0, log := { entries := [] } } }
        let restorePath := env.normalizePath s.config.restore.path
        if env.isDir restorePath then
          let s2 := { s1 with operation := some OngoingOperation.previewRestore }
          some (s2, restoreStepCommands env s restorePath ++ [Message.idle])
        else
          let err := ModalTheme.error (Error.restorationSourceInvalid restorePath)
          some ({ s1 with modalTheme := some err }, [])
  | Message.backupStep game info =>
      if info.nonEmpty then
        some ({ s with backupScreen := { s.backupScreen with
          totalGames := s.backupScreen.totalGames + 1,
          log := { entries := s.backupScreen.log.entries ++
            [{ name := game, files := info.foundFiles,
               registryKeys := info.foundRegistryKeys }] } } }, [])
      else
        some (s, [])
  | Message.restoreStep game info =>
      if info.nonEmpty then
        some ({ s with restoreScreen := { s.restoreScreen with
          totalGames := s.restoreScreen.totalGames + 1,
          log := { entries := s.restoreScreen.log.entries ++
            [{ name := game, files := info.foundFiles,
               registryKeys := info.foundRegistryKeys }] } } }, [])
      else
        some (s, [])
  | Message.editedBackupTarget text =>
      some ({ s with config := { s.config with backup := { path := text } } }, [])
  | Message.editedRestoreSource text =>
      some ({ s with config := { s.config with restore := { path := text } } }, [])
  | Message.editedRootPath index path =>
      if h : index < s.config.roots.length then
        some ({ s with config := { s.config with
          roots := s.config.roots.set index
            { s.config.roots.get ⟨index, h⟩ with path := path } } }, [])
      else
        none
  | Message.editedRootStore index store =>
      if h : index < s.config.roots.length then
        some ({ s with config := { s.config with
          roots := s.config.roots.set index
            { s.config.roots.get ⟨index, h⟩ with store := store } } }, [])
      else
        none
  | Message.addRoot =>
      some ({ s with
        backupScreen := { s.backupScreen with rootEditor :=
          { rows := s.backupScreen.rootEditor.rows ++ [()] } },
        config := { s.config with roots := s.config.roots ++
          [{ path := "", store := Store.other }] } }, [])
  | Message.removeRoot index =>
      if index < s.backupScreen.rootEditor.rows.length ∧
         index < s.config.roots.length then
        some ({ s with
          backupScreen := { s.backupScreen with rootEditor :=
            { rows := s.backupScreen.rootEditor.rows.eraseIdx index } },
          config := { s.config with roots := s.config.roots.eraseIdx index } }, [])
      else
        none
  | Message.switchScreenToBackup =>
      some ({ s with screen := Screen.backup }, [])
  | Message.switchScreenToRestore =>
      some ({ s with screen := Screen.restore }, [])

/-- Process one delivery order: thread the state through `update` for the
given message sequence (a panic anywhere aborts the trace). The handlers
themselves run sequentially in the iced event loop, but `Command::batch`
runs the dispatched futures concurrently and their messages arrive in
completion order, so properties about a dispatched batch must quantify
over every permutation of it — `deliver` fixes only the order chosen by
that quantifier. The follow-up commands of the delivered messages are not
re-queued; in all traces considered here the delivered messages dispatch
no commands. -/
def deliver (env : Env) : App → List Message → Option App
  | s, [] => some s
  | s, m :: ms =>
      match update env s m with
      | none => none
      | some (s1, _) => deliver env s1 ms

/-- The message that enters `start(kind)` for each kind. -/
def startMessage : OngoingOperation → Message
  | OngoingOperation.backup => Message.backupStart
  | OngoingOperation.previewBackup => Message.previewBackupStart
  | OngoingOperation.restore => Message.restoreStart
  | OngoingOperation.previewRestore => Message.previewRestoreStart

/-- The kind-specific precondition each `start` handler checks after the
guard: backup-target preparation for `Backup` (nothing for
`PreviewBackup`), restore-source directory existence for the restore
kinds. -/
def startPrecond (env : Env) (s : App) : OngoingOperation → Bool
  | OngoingOperation.backup =>
      match env.prepareBackupTarget (env.absolutePath s.config.backup.path) with
      | Except.ok _ => true
      | Except.error _ => false
  | OngoingOperation.previewBackup => true
  | OngoingOperation.restore => env.isDir (env.normalizePath s.config.restore.path)
  | OngoingOperation.previewRestore => env.isDir (env.normalizePath s.config.restore.path)

/-- Whether a message is a per-game task completion report. -/
def Message.isStepMsg : Message → Bool
  | Message.backupStep _ _ => true
  | Message.restoreStep _ _ => true
  | _ => false

/-- The run shape of an accepted `start(kind)` from `Idle` under
completion-order delivery: the handler dispatches the per-game task
messages plus one `Idle` follow-up and moves the guard to `Running(kind)`;
then, for EVERY completion order (every permutation of the dispatched
batch) and every point of that order, the guard is still `Running(kind)`
if the `Idle` follow-up has not yet been delivered and is `Idle` from the
moment it has — so each order has exactly one `Running(kind)` interval,
and once the whole batch is delivered the guard is `Idle` (also for an
empty manifest). The `Idle` follow-up may be delivered before any number
of the task messages, so the guard is not required to wait for the
appends. -/
def IsStartRunAllOrders (env : Env) (s : App) (k : OngoingOperation) : Prop :=
  ∃ s1 steps,
    update env s (startMessage k) = some (s1, steps ++ [Message.idle]) ∧
    steps.length = s.manifest.length ∧
    (∀ m ∈ steps, m.isStepMsg = true) ∧
    s1.operation = some k ∧
    (∀ order, order.Perm (steps ++ [Message.idle]) →
      (∀ p q, order = p ++ q →
        ∃ sp, deliver env s1 p = some sp ∧
          sp.operation = if Message.idle ∈ p then none else some k) ∧
      (∃ sf, deliver env s1 order = some sf ∧ sf.operation = none))

/-- Rust `String` order as a Bool comparator. -/
def strLe (a b : String) : Bool := decide (a ≤ b)

/-- Model of `itertools::sorted` over a set of strings. -/
def sortedStrings (l : List String) : List String := l.mergeSort strLe

/-- Model of `GameListEntry::view`: the lines of one entry's body, in order. During
restoration each file path is mapped through `game_file_restoration_target`
and failures are skipped; registry keys follow, sorted. -/
def GameListEntry.viewLines (env : Env) (restoring : Bool) (e : GameListEntry) :
    List String :=
  (if restoring then
    (sortedStrings e.files).filterMap
      (fun item => (env.gameFileRestorationTarget item).toOption)
  else
    sortedStrings e.files) ++ sortedStrings e.registryKeys

/-- Model of `sort_by_key(|x| x.name.clone())` comparator. -/
def entryLe (a b : GameListEntry) : Bool := strLe a.name b.name

/-- Model of `GameList::view`: sorts the entries by name in place and renders each
as (title, body lines). Returns the mutated component and the rendered
read-out. -/
def GameList.view (l : GameList) (env : Env) (restoring : Bool) :
    GameList × List (String × List String) :=
  let sortedEntries := l.entries.mergeSort entryLe
  ({ entries := sortedEntries },
   sortedEntries.map (fun e => (e.name, GameListEntry.viewLines env restoring e)))

/-- Model of `RootEditor::view`: when roots exist, renders one row per editor row,
reading `roots[i]` for row `i`; `none` models the indexing panic when a row
index is out of bounds of the registry. -/
def RootEditor.view (re : RootEditor) (roots : List RootsConfig) :
    Option (List RootsConfig) :=
  if roots.isEmpty then
    some []
  else
    (List.range re.rows.length).mapM (fun i => roots[i]?)

/-- Both result logs contain only entries with at least one file or
registry key. -/
def logInv (l : GameList) : Prop :=
  ∀ e ∈ l.entries, e.files ≠ [] ∨ e.registryKeys ≠ []

/-- The app-level instance of `logInv` on both screens. -/
def appInv (s : App) : Prop :=
  logInv s.backupScreen.log ∧ logInv s.restoreScreen.log

/-- The root-editor row list and the configured root registry have the
same length. -/
def rowsInv (s : App) : Prop :=
  s.backupScreen.rootEditor.rows.length = s.config.roots.length

/-- A small concrete configuration used to instantiate the theorems. -/
def config0 : Config :=
  { backup := { path := "tgt" }
    restore := { path := "srcdir" }
    roots := [{ path := "r1", store := Store.other }] }

/-- A concrete manifest game. -/
def game0 : Game := { steam := some { id := some 10 } }

/-- A concrete collaborator environment where every path exists and every
scan finds one file. -/
def env0 : Env :=
  { absolutePath := fun p => p
    normalizePath := fun p => p
    isDir := fun _ => true
    prepareBackupTarget := fun _ => Except.ok ()
    appDir := "appdir"
    scanGameForBackup := fun _ _ _ _ _ =>
      { foundFiles := ["save1.dat"], foundRegistryKeys := [] }
    scanGameForRestoration := fun _ _ =>
      { foundFiles := ["save1.dat"], foundRegistryKeys := [] }
    gameFileRestorationTarget := fun p => Except.ok p }

/-- Variant of `env0` whose restore source does not resolve to a directory. -/
def envNoDir : Env := { env0 with isDir := fun _ => false }

/-- A concrete idle app state with a one-game manifest. -/
def app0 : App := App.new config0 [("A", game0)] none "home"

/-- The state produced by `RestoreStart` / `PreviewRestoreStart` when the
normalized restore source is not a directory: the restore screen count and
log have been reset, the modal shows `RestorationSourceInvalid` with the
normalized path, and nothing else has changed. -/
def clearedRestoreError (env : Env) (s : App) : App :=
  { s with
    restoreScreen := { totalGames := 0, log := { entries := [] } },
    modalTheme := some (ModalTheme.error (Error.restorationSourceInvalid
      (env.normalizePath s.config.restore.path))) }

/-- A concrete idle state whose restore log already holds one entry. -/
def app3 : App :=
  { App.new config0 [] none "home" with
    restoreScreen := { totalGames := 1,
                       log := { entries := [{ name := "G", files := ["f"],
                                              registryKeys := [] }] } } }

/-- A concrete state in which a backup run holds the guard. -/
def appRunning : App := { app0 with operation := some OngoingOperation.backup }

/-- A concrete idle state with an empty manifest and empty logs. -/
def appEmpty : App := App.new config0 [] none "home"

/-- A concrete batch of task outcomes: one hit and one miss. -/
def msgs2 : List (String × ScanInfo) :=
  [("A", { foundFiles := ["f"], foundRegistryKeys := [] }),
   ("B", { foundFiles := [], foundRegistryKeys := [] })]

/-- The batch of `BackupStep` messages delivered by a list of completed
(game, outcome) tasks. -/
def backupStepBatch (msgs : List (String × ScanInfo)) : List Message :=
  msgs.map (fun p => Message.backupStep p.1 p.2)

/-- The log entry the `BackupStep` / `RestoreStep` handlers record for a
(game, outcome) pair. -/
def outcomeEntry (p : String × ScanInfo) : GameListEntry :=
  { name := p.1, files := p.2.foundFiles, registryKeys := p.2.foundRegistryKeys }

/-- The task message `env0`'s scan produces for the manifest game of
`app0`. -/
def stepA : Message :=
  Message.backupStep "A" { foundFiles := ["save1.dat"], foundRegistryKeys := [] }

/-- Delivering a task-completion message always succeeds, dispatches
nothing further, and leaves the guard untouched. -/
theorem update_stepMsg (env : Env) (s : App) (m : Message)
    (hm : m.isStepMsg = true) :
    ∃ s1, update env s m = some (s1, []) ∧ s1.operation = s.operation := by
  cases m <;> simp only [Message.isStepMsg, Bool.false_eq_true] at hm
  case backupStep game info =>
    by_cases h : info.nonEmpty
    · refine ⟨{ s with backupScreen := { s.backupScreen with
        totalGames := s.backupScreen.totalGames + 1,
        log := { entries := s.backupScreen.log.entries ++
          [{ name := game, files := info.foundFiles,
             registryKeys := info.foundRegistryKeys }] } } }, by simp [update, h], rfl⟩
    · exact ⟨s, by simp [update, h], rfl⟩
  case restoreStep game info =>
    by_cases h : info.nonEmpty
    · refine ⟨{ s with restoreScreen := {
        totalGames := s.restoreScreen.totalGames + 1,
        log := { entries := s.restoreScreen.log.entries ++
          [{ name := game, files := info.foundFiles,
             registryKeys := info.foundRegistryKeys }] } } }, by simp [update, h], rfl⟩
    · exact ⟨s, by simp [update, h], rfl⟩

/-- Fact: a task-completion message is not the `Idle` follow-up. -/
theorem isStepMsg_ne_idle (m : Message) (hm : m.isStepMsg = true) :
    m ≠ Message.idle := by
  cases m <;> simp [Message.isStepMsg] at hm ⊢

/-- Delivering any sequence drawn from task-completion messages and the
`Idle` follow-up always succeeds, and afterwards the guard is `Idle`
exactly when an `Idle` message occurred in the sequence (otherwise it is
whatever it was before). -/
theorem deliver_steps_idle (env : Env) (s : App) (l : List Message)
    (hl : ∀ m ∈ l, m.isStepMsg = true ∨ m = Message.idle) :
    ∃ s1, deliver env s l = some s1 ∧
      s1.operation = if Message.idle ∈ l then none else s.operation := by
  induction l generalizing s with
  | nil => exact ⟨s, rfl, by simp⟩
  | cons m ms ih =>
      rcases hl m (by simp) with hm | rfl
      · obtain ⟨s1, hu, hop⟩ := update_stepMsg env s m hm
        obtain ⟨s2, hd, hop2⟩ := ih s1 (fun x hx => hl x (by simp [hx]))
        refine ⟨s2, by simp [deliver, hu, hd], ?_⟩
        rw [hop2, hop]
        have hne : ¬ (Message.idle = m) := fun h => isStepMsg_ne_idle m hm h.symm
        by_cases hmem : Message.idle ∈ ms <;> simp [List.mem_cons, hmem, hne]
      · obtain ⟨s2, hd, hop2⟩ :=
          ih
            { s with
              operation := none, modalTheme := none,
              currentDir := s.originalWorkingDir }
            (fun x hx => hl x (by simp [hx]))
        refine ⟨s2, by simp [deliver, update, hd], ?_⟩
        rw [hop2]
        by_cases hmem : Message.idle ∈ ms <;> simp [List.mem_cons, hmem]

/-- A `start` handler whose dispatched batch is task messages plus the
`Idle` follow-up satisfies the all-completion-orders run shape. -/
theorem isStartRunAllOrders_of_update (env : Env) (s : App)
    (k : OngoingOperation) (s1 : App) (steps : List Message)
    (hu : update env s (startMessage k) = some (s1, steps ++ [Message.idle]))
    (hlen : steps.length = s.manifest.length)
    (hsteps : ∀ m ∈ steps, m.isStepMsg = true)
    (hop : s1.operation = some k) :
    IsStartRunAllOrders env s k := by
  refine ⟨s1, steps, hu, hlen, hsteps, hop, ?_⟩
  intro order horder
  have horder_mem : ∀ m ∈ order, m.isStepMsg = true ∨ m = Message.idle := by
    intro m hm
    have hmem : m ∈ steps ++ [Message.idle] := horder.mem_iff.mp hm
    rcases List.mem_append.mp hmem with h | h
    · exact Or.inl (hsteps m h)
    · exact Or.inr (List.mem_singleton.mp h)
  constructor
  · intro p q hpq
    obtain ⟨sp, hd, hop2⟩ := deliver_steps_idle env s1 p
      (fun m hm => horder_mem m (by rw [hpq]; exact List.mem_append_left q hm))
    exact ⟨sp, hd, by rw [hop2, hop]⟩
  · obtain ⟨sf, hd, hop2⟩ := deliver_steps_idle env s1 order horder_mem
    have hin : Message.idle ∈ order := horder.mem_iff.mpr (by simp)
    exact ⟨sf, hd, by rw [hop2, if_pos hin]⟩

/-- Claim C1 (amended): from an `Idle` guard with a passing kind-specific
precondition, `start(kind)` dispatches exactly the N per-game task
messages plus one `Idle` follow-up and moves the guard to `Running(kind)`;
in every completion-order delivery of that batch the guard has exactly one
`Running(kind)` period — it stays `Running(kind)` until the `Idle`
follow-up message is delivered and is `Idle` from then on — and once the
whole batch has been delivered the guard is `Idle`, also for N = 0. The
batch is delivered in completion order, so the `Idle` follow-up may arrive
before any number of the task appends: the guard does not wait for the
appends to be observed. -/
theorem start_one_running_period_any_order (env : Env) (s : App)
    (k : OngoingOperation)
    (hop : s.operation = none) (hpre : startPrecond env s k = true) :
    IsStartRunAllOrders env s k := by
  have hg : s.operation.isSome = false := by rw [hop]; rfl
  cases k
  case backup =>
    cases hprep : env.prepareBackupTarget (env.absolutePath s.config.backup.path) with
    | error e => simp [startPrecond, hprep] at hpre
    | ok u =>
      refine isStartRunAllOrders_of_update env s OngoingOperation.backup
        { s with
          backupScreen := { s.backupScreen with
            totalGames := 0, log := { entries := [] } },
          modalTheme := none,
          operation := some OngoingOperation.backup,
          currentDir := env.appDir }
        (backupStepCommands env s)
        (by simp [update, startMessage, hg, hprep])
        (by simp [backupStepCommands]) ?_ rfl
      intro m hm
      simp only [backupStepCommands, List.mem_map] at hm
      obtain ⟨kg, -, rfl⟩ := hm
      rfl
  case previewBackup =>
    refine isStartRunAllOrders_of_update env s OngoingOperation.previewBackup
      { s with
        operation := some OngoingOperation.previewBackup,
        backupScreen := { s.backupScreen with
          totalGames := 0, log := { entries := [] } },
        currentDir := env.appDir }
      (backupStepCommands env s)
      (by simp [update, startMessage, hg])
      (by simp [backupStepCommands]) ?_ rfl
    intro m hm
    simp only [backupStepCommands, List.mem_map] at hm
    obtain ⟨kg, -, rfl⟩ := hm
    rfl
  case restore =>
    simp only [startPrecond] at hpre
    refine isStartRunAllOrders_of_update env s OngoingOperation.restore
      { s with
        restoreScreen := { totalGames := 0, log := { entries := [] } },
        modalTheme := none,
        operation := some OngoingOperation.restore }
      (restoreStepCommands env s (env.normalizePath s.config.restore.path))
      (by simp [update, startMessage, hg, hpre])
      (by simp [restoreStepCommands]) ?_ rfl
    intro m hm
    simp only [restoreStepCommands, List.mem_map] at hm
    obtain ⟨kg, -, rfl⟩ := hm
    rfl
  case previewRestore =>
    simp only [startPrecond] at hpre
    refine isStartRunAllOrders_of_update env s OngoingOperation.previewRestore
      { s with
        restoreScreen := { totalGames := 0, log := { entries := [] } },
        operation := some OngoingOperation.previewRestore }
      (restoreStepCommands env s (env.normalizePath s.config.restore.path))
      (by simp [update, startMessage, hg, hpre])
      (by simp [restoreStepCommands]) ?_ rfl
    intro m hm
    simp only [restoreStepCommands, List.mem_map] at hm
    obtain ⟨kg, -, rfl⟩ := hm
    rfl

/-- Counterexample to C1 as stated: with a one-game manifest, the batch
dispatched by `PreviewBackupStart` is the task message followed by the
`Idle` follow-up, and the reversed order is a legal completion order
(the follow-up's future is empty, so it can complete before the scan).
Delivering that order's first message alone already returns the guard to
`Idle` with zero of the one appends observed; the append lands only
afterwards, while the guard is `Idle`. So the guard does not return to
`Idle` only after all dispatched tasks' appends have been observed. -/
theorem idle_before_appends_counterexample :
    app0.manifest.length = 1 ∧
    (update env0 app0 Message.previewBackupStart).map (fun p => p.2) =
      some [stepA, Message.idle] ∧
    [Message.idle, stepA].Perm [stepA, Message.idle] ∧
    ((update env0 app0 Message.previewBackupStart).bind
        (fun p => deliver env0 p.1 [Message.idle])).map
      (fun t => (t.operation, t.backupScreen.log.entries.length)) =
      some (none, 0) ∧
    ((update env0 app0 Message.previewBackupStart).bind
        (fun p => deliver env0 p.1 [Message.idle, stepA])).map
      (fun t => (t.operation, t.backupScreen.log.entries.length)) =
      some (none, 1) :=
  ⟨rfl, rfl, List.Perm.swap stepA Message.idle [], rfl, rfl⟩

/-- Witness for the amended C1 at a concrete one-game manifest and a
concrete environment. -/
theorem start_one_running_period_any_order_witness :
    IsStartRunAllOrders env0 app0 OngoingOperation.backup :=
  start_one_running_period_any_order env0 app0 OngoingOperation.backup rfl rfl

/-- Claim C5: any `start` message arriving while the guard holds some
running operation is a silent no-op: the handler returns the state
unchanged (both logs, their counts, the guard, everything) and dispatches
no command. -/
theorem running_guard_start_noop (env : Env) (s : App) (op : OngoingOperation)
    (hop : s.operation = some op) :
    update env s Message.backupStart = some (s, []) ∧
    update env s Message.previewBackupStart = some (s, []) ∧
    update env s Message.restoreStart = some (s, []) ∧
    update env s Message.previewRestoreStart = some (s, []) := by
  have hg : s.operation.isSome = true := by rw [hop]; rfl
  exact ⟨by simp [update, hg], by simp [update, hg],
         by simp [update, hg], by simp [update, hg]⟩

/-- Witness for C5 at a concrete state running a backup. -/
theorem running_guard_start_noop_witness :
    update env0 appRunning Message.backupStart = some (appRunning, []) ∧
    update env0 appRunning Message.previewBackupStart = some (appRunning, []) ∧
    update env0 appRunning Message.restoreStart = some (appRunning, []) ∧
    update env0 appRunning Message.previewRestoreStart = some (appRunning, []) :=
  running_guard_start_noop env0 appRunning OngoingOperation.backup rfl

/-- Claim C9: the indexed root-registry operations panic (modeled as
`none`) on any index at or beyond the registry length, rather than
returning an error value or leaving the registry unchanged. -/
theorem oob_root_edit_panics (env : Env) (s : App) (i : Nat) (p : String)
    (st : Store) (hi : s.config.roots.length ≤ i) :
    update env s (Message.editedRootPath i p) = none ∧
    update env s (Message.editedRootStore i st) = none ∧
    update env s (Message.removeRoot i) = none := by
  have h : ¬ i < s.config.roots.length := by omega
  exact ⟨by simp [update, h], by simp [update, h], by simp [update, h]⟩

/-- Witness for C9 at index 1 of a one-root registry. -/
theorem oob_root_edit_panics_witness :
    update env0 app0 (Message.editedRootPath 1 "p") = none ∧
    update env0 app0 (Message.editedRootStore 1 Store.steam) = none ∧
    update env0 app0 (Message.removeRoot 1) = none :=
  oob_root_edit_panics env0 app0 1 "p" Store.steam (by decide)

/-- Claim C3 (amended): when the guard is `Idle` and the normalized restore
source is not a directory, `RestoreStart` and `PreviewRestoreStart`
dispatch no task, leave the guard `Idle`, and set the error modal to
`RestorationSourceInvalid` with the normalized path — but, before the
check, they have already reset the restore screen count to 0 and cleared
its result log (and `RestoreStart` dismisses any modal); nothing else
changes. -/
theorem invalid_restore_source_short_circuits (env : Env) (s : App)
    (hop : s.operation = none)
    (hdir : env.isDir (env.normalizePath s.config.restore.path) = false) :
    update env s Message.restoreStart = some (clearedRestoreError env s, []) ∧
    update env s Message.previewRestoreStart = some (clearedRestoreError env s, []) := by
  have hg : s.operation.isSome = false := by rw [hop]; rfl
  exact ⟨by simp [update, hg, hdir, clearedRestoreError],
         by simp [update, hg, hdir, clearedRestoreError]⟩

/-- Counterexample to C3 as stated: from an idle state whose restore log
already holds an entry, `RestoreStart` with an invalid source does set the
error and dispatch nothing — but it also clears the restore log, so a state
change beyond the error does occur. -/
theorem invalid_restore_source_counterexample :
    app3.operation = none ∧
    app3.restoreScreen.log.entries ≠ [] ∧
    (update envNoDir app3 Message.restoreStart).map
      (fun p => (p.1.operation, p.1.modalTheme, p.1.restoreScreen.log.entries, p.2)) =
      some (none,
            some (ModalTheme.error (Error.restorationSourceInvalid "srcdir")),
            [], []) := by
  refine ⟨rfl, by decide, by decide⟩

/-- Witness for the amended C3 at a concrete state and environment. -/
theorem invalid_restore_source_witness :
    update envNoDir app0 Message.restoreStart =
      some (clearedRestoreError envNoDir app0, []) ∧
    update envNoDir app0 Message.previewRestoreStart =
      some (clearedRestoreError envNoDir app0, []) :=
  invalid_restore_source_short_circuits envNoDir app0 rfl rfl

/-- Delivering a batch of backup task outcomes appends one log entry per
non-empty outcome, in delivery order, and adds the number of non-empty
outcomes to the processed-games count. -/
theorem deliver_backupSteps (env : Env) (s : App)
    (msgs : List (String × ScanInfo)) :
    ∃ s1, deliver env s (backupStepBatch msgs) = some s1 ∧
      s1.backupScreen.log.entries = s.backupScreen.log.entries ++
        ((msgs.filter fun p => p.2.nonEmpty).map outcomeEntry) ∧
      s1.backupScreen.totalGames = s.backupScreen.totalGames +
        (msgs.filter fun p => p.2.nonEmpty).length := by
  induction msgs generalizing s with
  | nil => exact ⟨s, rfl, by simp [backupStepBatch], by simp [backupStepBatch]⟩
  | cons p ps ih =>
    by_cases h : p.2.nonEmpty
    · obtain ⟨s1, hd, he, htot⟩ := ih { s with backupScreen := { s.backupScreen with
        totalGames := s.backupScreen.totalGames + 1,
        log := { entries := s.backupScreen.log.entries ++ [outcomeEntry p] } } }
      refine ⟨s1, ?_, ?_, ?_⟩
      · simp only [backupStepBatch, List.map_cons, deliver]
        rw [show update env s (Message.backupStep p.1 p.2) =
          some ({ s with backupScreen := { s.backupScreen with
            totalGames := s.backupScreen.totalGames + 1,
            log := { entries := s.backupScreen.log.entries ++ [outcomeEntry p] } } }, [])
          from by simp [update, h, outcomeEntry]]
        exact hd
      · rw [he]
        simp [List.filter_cons, h, List.append_assoc]
      · rw [htot]
        simp only [List.filter_cons, h, if_true]
        simp
        omega
    · obtain ⟨s1, hd, he, htot⟩ := ih s
      refine ⟨s1, ?_, ?_, ?_⟩
      · simp only [backupStepBatch, List.map_cons, deliver]
        rw [show update env s (Message.backupStep p.1 p.2) = some (s, [])
          from by simp [update, h]]
        exact hd
      · rw [he]
        simp [List.filter_cons, h]
      · rw [htot]
        simp [List.filter_cons, h]

/-- Claim C2 (amended): the Result Log does not de-duplicate: delivering a
batch of outcomes from a cleared log appends one entry per non-empty
outcome (a second outcome for an already-logged game name appends a
duplicate entry), and the count equals the number of non-empty outcomes
appended since the clear; only when the non-empty outcomes carry pairwise
distinct game names (as holds in practice, one task per manifest entry)
does the count equal the number of distinct game names with a non-empty
outcome. -/
theorem result_log_append_counts (env : Env) (s : App)
    (msgs : List (String × ScanInfo))
    (he : s.backupScreen.log.entries = [])
    (ht : s.backupScreen.totalGames = 0) :
    (deliver env s (backupStepBatch msgs)).map
        (fun s1 => (s1.backupScreen.log.entries, s1.backupScreen.totalGames)) =
      some ((msgs.filter fun p => p.2.nonEmpty).map outcomeEntry,
            (msgs.filter fun p => p.2.nonEmpty).length) ∧
    (((msgs.filter fun p => p.2.nonEmpty).map Prod.fst).Nodup →
      (deliver env s (backupStepBatch msgs)).map
          (fun s1 => s1.backupScreen.totalGames) =
        some (((msgs.filter fun p => p.2.nonEmpty).map Prod.fst).dedup.length)) := by
  obtain ⟨s1, hd, hent, htot⟩ := deliver_backupSteps env s msgs
  constructor
  · rw [hd]
    simp [hent, htot, he, ht]
  · intro hnd
    rw [hd, List.dedup_eq_self.mpr hnd, List.length_map]
    simp [htot, ht]

/-- Counterexample to C2 as stated: two non-empty outcomes for the same
game name are both recorded — the second append duplicates the entry
instead of overwriting it, and the count (2) exceeds the number of
distinct game names (1). -/
theorem result_log_duplicate_counterexample :
    (deliver env0 appEmpty
        [Message.backupStep "A" { foundFiles := ["f1"], foundRegistryKeys := [] },
         Message.backupStep "A" { foundFiles := ["f2"], foundRegistryKeys := [] }]).map
      (fun s1 => (s1.backupScreen.log.entries.map GameListEntry.name,
                  s1.backupScreen.totalGames,
                  decide (s1.backupScreen.log.entries.length ≤ 1))) =
      some (["A", "A"], 2, false) := by
  decide

/-- Witness for the amended C2 at the concrete batch `msgs2`. -/
theorem result_log_append_counts_witness :
    (deliver env0 appEmpty (backupStepBatch msgs2)).map
        (fun s1 => (s1.backupScreen.log.entries, s1.backupScreen.totalGames)) =
      some ((msgs2.filter fun p => p.2.nonEmpty).map outcomeEntry,
            (msgs2.filter fun p => p.2.nonEmpty).length) ∧
    (((msgs2.filter fun p => p.2.nonEmpty).map Prod.fst).Nodup →
      (deliver env0 appEmpty (backupStepBatch msgs2)).map
          (fun s1 => s1.backupScreen.totalGames) =
        some (((msgs2.filter fun p => p.2.nonEmpty).map Prod.fst).dedup.length)) :=
  result_log_append_counts env0 appEmpty msgs2 rfl rfl

/-- An outcome that passes the non-emptiness gate has at least one file or
registry key. -/
theorem nonEmpty_spec (info : ScanInfo) (h : info.nonEmpty = true) :
    info.foundFiles ≠ [] ∨ info.foundRegistryKeys ≠ [] := by
  by_cases hf : info.foundFiles = []
  · by_cases hr : info.foundRegistryKeys = []
    · simp [ScanInfo.nonEmpty, hf, hr] at h
    · exact Or.inr hr
  · exact Or.inl hf

/-- Every transition preserves the invariant that all logged entries carry
at least one file or registry key: handlers either leave the logs alone,
clear them, or append an entry that passed the non-emptiness gate. -/
theorem appInv_preserved (env : Env) (s : App) (m : Message) (s1 : App)
    (cmds : List Message) (hu : update env s m = some (s1, cmds))
    (hinv : appInv s) : appInv s1 := by
  obtain ⟨hb, hr⟩ := hinv
  cases m with
  | idle =>
      simp only [update, Option.some.injEq, Prod.mk.injEq] at hu
      obtain ⟨rfl, -⟩ := hu
      exact ⟨hb, hr⟩
  | confirmBackupStart =>
      simp only [update, Option.some.injEq, Prod.mk.injEq] at hu
      obtain ⟨rfl, -⟩ := hu
      exact ⟨hb, hr⟩
  | confirmRestoreStart =>
      simp only [update, Option.some.injEq, Prod.mk.injEq] at hu
      obtain ⟨rfl, -⟩ := hu
      exact ⟨hb, hr⟩
  | backupStart =>
      simp only [update] at hu
      split at hu
      · simp only [Option.some.injEq, Prod.mk.injEq] at hu
        obtain ⟨rfl, -⟩ := hu
        exact ⟨hb, hr⟩
      · split at hu
        · simp only [Option.some.injEq, Prod.mk.injEq] at hu
          obtain ⟨rfl, -⟩ := hu
          exact ⟨by simp [logInv], hr⟩
        · simp only [Option.some.injEq, Prod.mk.injEq] at hu
          obtain ⟨rfl, -⟩ := hu
          exact ⟨by simp [logInv], hr⟩
  | previewBackupStart =>
      simp only [update] at hu
      split at hu
      · simp only [Option.some.injEq, Prod.mk.injEq] at hu
        obtain ⟨rfl, -⟩ := hu
        exact ⟨hb, hr⟩
      · simp only [Option.some.injEq, Prod.mk.injEq] at hu
        obtain ⟨rfl, -⟩ := hu
        exact ⟨by simp [logInv], hr⟩
  | restoreStart =>
      simp only [update] at hu
      split at hu
      · simp only [Option.some.injEq, Prod.mk.injEq] at hu
        obtain ⟨rfl, -⟩ := hu
        exact ⟨hb, hr⟩
      · split at hu
        · simp only [Option.some.injEq, Prod.mk.injEq] at hu
          obtain ⟨rfl, -⟩ := hu
          exact ⟨hb, by simp [logInv]⟩
        · simp only [Option.some.injEq, Prod.mk.injEq] at hu
          obtain ⟨rfl, -⟩ := hu
          exact ⟨hb, by simp [logInv]⟩
  | previewRestoreStart =>
      simp only [update] at hu
      split at hu
      · simp only [Option.some.injEq, Prod.mk.injEq] at hu
        obtain ⟨rfl, -⟩ := hu
        exact ⟨hb, hr⟩
      · split at hu
        · simp only [Option.some.injEq, Prod.mk.injEq] at hu
          obtain ⟨rfl, -⟩ := hu
          exact ⟨hb, by simp [logInv]⟩
        · simp only [Option.some.injEq, Prod.mk.injEq] at hu
          obtain ⟨rfl, -⟩ := hu
          exact ⟨hb, by simp [logInv]⟩
  | backupStep game info =>
      simp only [update] at hu
      split at hu
      case isTrue h =>
        simp only [Option.some.injEq, Prod.mk.injEq] at hu
        obtain ⟨rfl, -⟩ := hu
        refine ⟨?_, hr⟩
        intro e he
        simp only [List.mem_append, List.mem_singleton] at he
        rcases he with he | rfl
        · exact hb e he
        · exact nonEmpty_spec info h
      case isFalse h =>
        simp only [Option.some.injEq, Prod.mk.injEq] at hu
        obtain ⟨rfl, -⟩ := hu
        exact ⟨hb, hr⟩
  | restoreStep game info =>
      simp only [update] at hu
      split at hu
      case isTrue h =>
        simp only [Option.some.injEq, Prod.mk.injEq] at hu
        obtain ⟨rfl, -⟩ := hu
        refine ⟨hb, ?_⟩
        intro e he
        simp only [List.mem_append, List.mem_singleton] at he
        rcases he with he | rfl
        · exact hr e he
        · exact nonEmpty_spec info h
      case isFalse h =>
        simp only [Option.some.injEq, Prod.mk.injEq] at hu
        obtain ⟨rfl, -⟩ := hu
        exact ⟨hb, hr⟩
  | editedBackupTarget text =>
      simp only [update, Option.some.injEq, Prod.mk.injEq] at hu
      obtain ⟨rfl, -⟩ := hu
      exact ⟨hb, hr⟩
  | editedRestoreSource text =>
      simp only [update, Option.some.injEq, Prod.mk.injEq] at hu
      obtain ⟨rfl, -⟩ := hu
      exact ⟨hb, hr⟩
  | editedRootPath index path =>
      simp only [update] at hu
      split at hu
      · simp only [Option.some.injEq, Prod.mk.injEq] at hu
        obtain ⟨rfl, -⟩ := hu
        exact ⟨hb, hr⟩
      · simp at hu
  | editedRootStore index store =>
      simp only [update] at hu
      split at hu
      · simp only [Option.some.injEq, Prod.mk.injEq] at hu
        obtain ⟨rfl, -⟩ := hu
        exact ⟨hb, hr⟩
      · simp at hu
  | addRoot =>
      simp only [update, Option.some.injEq, Prod.mk.injEq] at hu
      obtain ⟨rfl, -⟩ := hu
      exact ⟨hb, hr⟩
  | removeRoot index =>
      simp only [update] at hu
      split at hu
      · simp only [Option.some.injEq, Prod.mk.injEq] at hu
        obtain ⟨rfl, -⟩ := hu
        exact ⟨hb, hr⟩
      · simp at hu
  | switchScreenToRestore =>
      simp only [update, Option.some.injEq, Prod.mk.injEq] at hu
      obtain ⟨rfl, -⟩ := hu
      exact ⟨hb, hr⟩
  | switchScreenToBackup =>
      simp only [update, Option.some.injEq, Prod.mk.injEq] at hu
      obtain ⟨rfl, -⟩ := hu
      exact ⟨hb, hr⟩

/-- Claim C4: appending an outcome with no files and no registry keys is a
no-op on both screens (entry dropped, counts and state unchanged, nothing
dispatched); the invariant that every recorded entry has at least one file
or registry key holds at construction and is preserved by every
transition, so a Result Log never contains an entry with both sets
empty. -/
theorem empty_outcome_dropped (env : Env) (s s1 : App) (m : Message)
    (cmds : List Message) (g : String) (info : ScanInfo)
    (c : Config) (mf : List (String × Game)) (mt : Option ModalTheme)
    (d : String)
    (hf : info.foundFiles = []) (hr : info.foundRegistryKeys = [])
    (hu : update env s m = some (s1, cmds)) (hinv : appInv s) :
    update env s (Message.backupStep g info) = some (s, []) ∧
    update env s (Message.restoreStep g info) = some (s, []) ∧
    appInv s1 ∧
    appInv (App.new c mf mt d) := by
  have hne : info.nonEmpty = false := by simp [ScanInfo.nonEmpty, hf, hr]
  refine ⟨by simp [update, hne], by simp [update, hne],
    appInv_preserved env s m s1 cmds hu hinv, ?_, ?_⟩
  · simp [logInv, App.new, BackupScreenComponent.new]
  · simp [logInv, App.new]

/-- Witness for C4 at concrete inputs (the transition taken is a screen
switch). -/
theorem empty_outcome_dropped_witness :
    update env0 app0
      (Message.backupStep "G" { foundFiles := [], foundRegistryKeys := [] }) =
      some (app0, []) ∧
    update env0 app0
      (Message.restoreStep "G" { foundFiles := [], foundRegistryKeys := [] }) =
      some (app0, []) ∧
    appInv { app0 with screen := Screen.restore } ∧
    appInv (App.new config0 [] none "home") :=
  empty_outcome_dropped env0 app0 { app0 with screen := Screen.restore }
    Message.switchScreenToRestore [] "G"
    { foundFiles := [], foundRegistryKeys := [] }
    config0 [] none "home" rfl rfl rfl
    ⟨by simp [logInv, app0, App.new, BackupScreenComponent.new],
     by simp [logInv, app0, App.new]⟩

/-- Fact: `mapM` over `Option` succeeds when every element maps to `some`. -/
theorem mapM_option_isSome {α β : Type} (f : α → Option β) (l : List α)
    (h : ∀ a ∈ l, (f a).isSome = true) : (l.mapM f).isSome = true := by
  induction l with
  | nil => rfl
  | cons a t ih =>
      obtain ⟨b, hb⟩ := Option.isSome_iff_exists.mp (h a (by simp))
      obtain ⟨bs, hbs⟩ :=
        Option.isSome_iff_exists.mp (ih (fun x hx => h x (by simp [hx])))
      rw [List.mapM_cons, hb, hbs]
      rfl

/-- Every transition preserves the equality between the root-editor row
count and the registry length: `AddRoot` pushes to both, `RemoveRoot`
removes from both, the path/store edits keep lengths, and nothing else
touches either. -/
theorem rowsInv_preserved (env : Env) (s : App) (m : Message) (s1 : App)
    (cmds : List Message) (hu : update env s m = some (s1, cmds))
    (hinv : rowsInv s) : rowsInv s1 := by
  unfold rowsInv at hinv ⊢
  cases m with
  | idle =>
      simp only [update, Option.some.injEq, Prod.mk.injEq] at hu
      obtain ⟨rfl, -⟩ := hu
      exact hinv
  | confirmBackupStart =>
      simp only [update, Option.some.injEq, Prod.mk.injEq] at hu
      obtain ⟨rfl, -⟩ := hu
      exact hinv
  | confirmRestoreStart =>
      simp only [update, Option.some.injEq, Prod.mk.injEq] at hu
      obtain ⟨rfl, -⟩ := hu
      exact hinv
  | backupStart =>
      simp only [update] at hu
      split at hu
      · simp only [Option.some.injEq, Prod.mk.injEq] at hu
        obtain ⟨rfl, -⟩ := hu
        exact hinv
      · split at hu <;>
          (simp only [Option.some.injEq, Prod.mk.injEq] at hu
           obtain ⟨rfl, -⟩ := hu
           exact hinv)
  | previewBackupStart =>
      simp only [update] at hu
      split at hu <;>
        (simp only [Option.some.injEq, Prod.mk.injEq] at hu
         obtain ⟨rfl, -⟩ := hu
         exact hinv)
  | restoreStart =>
      simp only [update] at hu
      split at hu
      · simp only [Option.some.injEq, Prod.mk.injEq] at hu
        obtain ⟨rfl, -⟩ := hu
        exact hinv
      · split at hu <;>
          (simp only [Option.some.injEq, Prod.mk.injEq] at hu
           obtain ⟨rfl, -⟩ := hu
           exact hinv)
  | previewRestoreStart =>
      simp only [update] at hu
      split at hu
      · simp only [Option.some.injEq, Prod.mk.injEq] at hu
        obtain ⟨rfl, -⟩ := hu
        exact hinv
      · split at hu <;>
          (simp only [Option.some.injEq, Prod.mk.injEq] at hu
           obtain ⟨rfl, -⟩ := hu
           exact hinv)
  | backupStep game info =>
      simp only [update] at hu
      split at hu <;>
        (simp only [Option.some.injEq, Prod.mk.injEq] at hu
         obtain ⟨rfl, -⟩ := hu
         exact hinv)
  | restoreStep game info =>
      simp only [update] at hu
      split at hu <;>
        (simp only [Option.some.injEq, Prod.mk.injEq] at hu
         obtain ⟨rfl, -⟩ := hu
         exact hinv)
  | editedBackupTarget text =>
      simp only [update, Option.some.injEq, Prod.mk.injEq] at hu
      obtain ⟨rfl, -⟩ := hu
      exact hinv
  | editedRestoreSource text =>
      simp only [update, Option.some.injEq, Prod.mk.injEq] at hu
      obtain ⟨rfl, -⟩ := hu
      exact hinv
  | editedRootPath index path =>
      simp only [update] at hu
      split at hu
      · simp only [Option.some.injEq, Prod.mk.injEq] at hu
        obtain ⟨rfl, -⟩ := hu
        simpa [List.length_set] using hinv
      · simp at hu
  | editedRootStore index store =>
      simp only [update] at hu
      split at hu
      · simp only [Option.some.injEq, Prod.mk.injEq] at hu
        obtain ⟨rfl, -⟩ := hu
        simpa [List.length_set] using hinv
      · simp at hu
  | addRoot =>
      simp only [update, Option.some.injEq, Prod.mk.injEq] at hu
      obtain ⟨rfl, -⟩ := hu
      simp [hinv]
  | removeRoot index =>
      simp only [update] at hu
      split at hu
      case isTrue h =>
        simp only [Option.some.injEq, Prod.mk.injEq] at hu
        obtain ⟨rfl, -⟩ := hu
        simp [List.length_eraseIdx, h.1, h.2, hinv]
      case isFalse h =>
        simp at hu
  | switchScreenToRestore =>
      simp only [update, Option.some.injEq, Prod.mk.injEq] at hu
      obtain ⟨rfl, -⟩ := hu
      exact hinv
  | switchScreenToBackup =>
      simp only [update, Option.some.injEq, Prod.mk.injEq] at hu
      obtain ⟨rfl, -⟩ := hu
      exact hinv

/-- Under the length invariant the root editor renders every row without
indexing the registry out of bounds. -/
theorem rowsInv_view_isSome (s : App) (hinv : rowsInv s) :
    (RootEditor.view s.backupScreen.rootEditor s.config.roots).isSome = true := by
  unfold RootEditor.view
  split
  · rfl
  · apply mapM_option_isSome
    intro i hi
    simp only [List.mem_range] at hi
    rw [rowsInv] at hinv
    rw [hinv] at hi
    rw [List.getElem?_eq_getElem hi]
    rfl

/-- Claim C10: the root-editor row list and the configured root registry
have equal lengths at construction, the equality is preserved by every
transition (`AddRoot` appends to both, `RemoveRoot` removes from both in
the same step), and under it rendering the editor never indexes the
registry out of bounds. -/
theorem root_editor_rows_sync (env : Env) (s s1 : App) (m : Message)
    (cmds : List Message) (c : Config) (mf : List (String × Game))
    (mt : Option ModalTheme) (d : String)
    (hu : update env s m = some (s1, cmds)) (hinv : rowsInv s) :
    (BackupScreenComponent.new c).rootEditor.rows.length = c.roots.length ∧
    rowsInv (App.new c mf mt d) ∧
    rowsInv s1 ∧
    (RootEditor.view s.backupScreen.rootEditor s.config.roots).isSome = true ∧
    (RootEditor.view s1.backupScreen.rootEditor s1.config.roots).isSome = true := by
  have h1 : rowsInv s1 := rowsInv_preserved env s m s1 cmds hu hinv
  exact ⟨by simp [BackupScreenComponent.new],
    by simp [rowsInv, App.new, BackupScreenComponent.new],
    h1, rowsInv_view_isSome s hinv, rowsInv_view_isSome s1 h1⟩

/-- Witness for C10 at a concrete state, taking the `AddRoot` transition. -/
theorem root_editor_rows_sync_witness :
    (BackupScreenComponent.new config0).rootEditor.rows.length =
      config0.roots.length ∧
    rowsInv (App.new config0 [] none "home") ∧
    rowsInv { app0 with
      backupScreen := { app0.backupScreen with rootEditor :=
        { rows := app0.backupScreen.rootEditor.rows ++ [()] } },
      config := { app0.config with roots := app0.config.roots ++
        [{ path := "", store := Store.other }] } } ∧
    (RootEditor.view app0.backupScreen.rootEditor app0.config.roots).isSome = true ∧
    (RootEditor.view
      ({ app0 with
        backupScreen := { app0.backupScreen with rootEditor :=
          { rows := app0.backupScreen.rootEditor.rows ++ [()] } },
        config := { app0.config with roots := app0.config.roots ++
          [{ path := "", store := Store.other }] } } : App).backupScreen.rootEditor
      ({ app0 with
        backupScreen := { app0.backupScreen with rootEditor :=
          { rows := app0.backupScreen.rootEditor.rows ++ [()] } },
        config := { app0.config with roots := app0.config.roots ++
          [{ path := "", store := Store.other }] } } : App).config.roots).isSome = true :=
  root_editor_rows_sync env0 app0
    { app0 with
      backupScreen := { app0.backupScreen with rootEditor :=
        { rows := app0.backupScreen.rootEditor.rows ++ [()] } },
      config := { app0.config with roots := app0.config.roots ++
        [{ path := "", store := Store.other }] } }
    Message.addRoot [] config0 [] none "home" rfl rfl

/-- Claim C8: for a registry of length L and any index i < L (with the
editor rows in sync, as every reachable state has), `RemoveRoot(i)` yields
a registry of length L - 1 equal to the elements before i followed by the
elements after i: the occurrence formerly at index i is gone, elements
before i keep their positions, and elements after i shift down by one,
preserving relative order. -/
theorem remove_root_shifts (env : Env) (s : App) (i j : Nat)
    (hrows : rowsInv s) (hi : i < s.config.roots.length) :
    (update env s (Message.removeRoot i)).map (fun p => p.1.config.roots) =
      some (s.config.roots.take i ++ s.config.roots.drop (i + 1)) ∧
    (update env s (Message.removeRoot i)).map
        (fun p => p.1.config.roots.length) =
      some (s.config.roots.length - 1) ∧
    (update env s (Message.removeRoot i)).map (fun p => p.2) = some [] ∧
    (j < i → (update env s (Message.removeRoot i)).map
        (fun p => p.1.config.roots[j]?) = some s.config.roots[j]?) ∧
    (i ≤ j → (update env s (Message.removeRoot i)).map
        (fun p => p.1.config.roots[j]?) = some s.config.roots[j + 1]?) := by
  have hr : i < s.backupScreen.rootEditor.rows.length := by
    rw [rowsInv] at hrows
    rw [hrows]
    exact hi
  have hu : update env s (Message.removeRoot i) =
      some ({ s with
        backupScreen := { s.backupScreen with rootEditor :=
          { rows := s.backupScreen.rootEditor.rows.eraseIdx i } },
        config := { s.config with roots := s.config.roots.eraseIdx i } }, []) := by
    simp [update, hr, hi]
  refine ⟨?_, ?_, ?_, ?_, ?_⟩
  · rw [hu]
    simp [List.eraseIdx_eq_take_drop_succ]
  · rw [hu]
    simp [List.length_eraseIdx, hi]
  · rw [hu]
    rfl
  · intro hj
    rw [hu]
    have h1 : j < (s.config.roots.take i).length := by
      simp only [List.length_take]
      omega
    simp only [Option.map_some']
    rw [List.eraseIdx_eq_take_drop_succ, List.getElem?_append, if_pos h1,
      List.getElem?_take, if_pos hj]
  · intro hj
    rw [hu]
    have h2 : (s.config.roots.take i).length = i := by
      simp only [List.length_take]
      omega
    have h1 : ¬ j < (s.config.roots.take i).length := by omega
    have h3 : i + 1 + (j - (s.config.roots.take i).length) = j + 1 := by omega
    simp only [Option.map_some']
    rw [List.eraseIdx_eq_take_drop_succ, List.getElem?_append, if_neg h1,
      List.getElem?_drop, h3]

/-- Witness for C8 at index 0 of a one-root registry (with j = 0 probing
the shifted side). -/
theorem remove_root_shifts_witness :
    (update env0 app0 (Message.removeRoot 0)).map (fun p => p.1.config.roots) =
      some (app0.config.roots.take 0 ++ app0.config.roots.drop 1) ∧
    (update env0 app0 (Message.removeRoot 0)).map
        (fun p => p.1.config.roots.length) =
      some (app0.config.roots.length - 1) ∧
    (update env0 app0 (Message.removeRoot 0)).map (fun p => p.2) = some [] ∧
    (0 < 0 → (update env0 app0 (Message.removeRoot 0)).map
        (fun p => p.1.config.roots[0]?) = some app0.config.roots[0]?) ∧
    (0 ≤ 0 → (update env0 app0 (Message.removeRoot 0)).map
        (fun p => p.1.config.roots[0]?) = some app0.config.roots[1]?) :=
  remove_root_shifts env0 app0 0 0 rfl (by decide)

/-- Claim C7: starting `Restore` or `PreviewRestore` never changes the
process working directory (in any state, whatever branch is taken);
starting `Backup` or `PreviewBackup` from an idle guard (with the backup
target preparable) sets it to the fixed application directory; and the
`Idle` transition (modal dismissal / run completion) unconditionally
resets it to the directory recorded at process start. -/
theorem working_directory_discipline (env : Env) (s t : App)
    (hop : s.operation = none)
    (hprep : env.prepareBackupTarget (env.absolutePath s.config.backup.path) =
      Except.ok ()) :
    (update env t Message.restoreStart).map (fun p => p.1.currentDir) =
      some t.currentDir ∧
    (update env t Message.previewRestoreStart).map (fun p => p.1.currentDir) =
      some t.currentDir ∧
    (update env s Message.backupStart).map (fun p => p.1.currentDir) =
      some env.appDir ∧
    (update env s Message.previewBackupStart).map (fun p => p.1.currentDir) =
      some env.appDir ∧
    (update env t Message.idle).map (fun p => p.1.currentDir) =
      some t.originalWorkingDir := by
  have hg : s.operation.isSome = false := by rw [hop]; rfl
  refine ⟨?_, ?_, ?_, ?_, ?_⟩
  · by_cases ht : t.operation.isSome
    · simp [update, ht]
    · by_cases hd : env.isDir (env.normalizePath t.config.restore.path) <;>
        simp [update, ht, hd]
  · by_cases ht : t.operation.isSome
    · simp [update, ht]
    · by_cases hd : env.isDir (env.normalizePath t.config.restore.path) <;>
        simp [update, ht, hd]
  · simp [update, hg, hprep]
  · simp [update, hg]
  · simp [update]

/-- Witness for C7 at concrete states (one idle, one holding a running
backup). -/
theorem working_directory_discipline_witness :
    (update env0 appRunning Message.restoreStart).map (fun p => p.1.currentDir) =
      some appRunning.currentDir ∧
    (update env0 appRunning Message.previewRestoreStart).map
        (fun p => p.1.currentDir) =
      some appRunning.currentDir ∧
    (update env0 app0 Message.backupStart).map (fun p => p.1.currentDir) =
      some env0.appDir ∧
    (update env0 app0 Message.previewBackupStart).map (fun p => p.1.currentDir) =
      some env0.appDir ∧
    (update env0 appRunning Message.idle).map (fun p => p.1.currentDir) =
      some appRunning.originalWorkingDir :=
  working_directory_discipline env0 app0 appRunning rfl rfl

/-- Fact: `strLe` is transitive. -/
theorem strLe_trans (a b c : String) (hab : strLe a b = true)
    (hbc : strLe b c = true) : strLe a c = true := by
  simp only [strLe, decide_eq_true_eq] at hab hbc ⊢
  exact le_trans hab hbc

/-- Fact: `strLe` is total. -/
theorem strLe_total (a b : String) : (strLe a b || strLe b a) = true := by
  simp only [strLe, Bool.or_eq_true, decide_eq_true_eq]
  exact le_total a b

/-- Fact: `entryLe` is transitive. -/
theorem entryLe_trans (a b c : GameListEntry) (hab : entryLe a b = true)
    (hbc : entryLe b c = true) : entryLe a c = true :=
  strLe_trans a.name b.name c.name hab hbc

/-- Fact: `entryLe` is total. -/
theorem entryLe_total (a b : GameListEntry) :
    (entryLe a b || entryLe b a) = true :=
  strLe_total a.name b.name

/-- Sorted strings are sorted under `≤`. -/
theorem sortedStrings_sorted (xs : List String) :
    (sortedStrings xs).Sorted (· ≤ ·) := by
  have h := @List.sorted_mergeSort _ strLe strLe_trans strLe_total xs
  exact h.imp (fun {a b} hab => by
    simpa [strLe, decide_eq_true_eq] using hab)

/-- Fact: `filterMap` keeps exactly the elements on which the function
succeeds. -/
theorem length_filterMap_eq {α β : Type} (f : α → Option β) (l : List α) :
    (l.filterMap f).length = (l.filter fun a => (f a).isSome).length := by
  induction l with
  | nil => rfl
  | cons a t ih =>
      cases h : f a <;> simp [List.filterMap_cons, List.filter_cons, h, ih]

/-- Claim C6: the rendered read-out lists entries in ascending game-name
order; within each entry the lines are the file paths in sorted order
(each first mapped through `game_file_restoration_target` in a restoration
context, with paths whose mapping fails omitted from the rendered lines)
followed by the registry keys in sorted order; sorting permutes but does
not alter the underlying data, so omitted paths remain in the entry's
file set. -/
theorem game_list_view_sorted (env : Env) (restoring : Bool) (l : GameList)
    (e : GameListEntry) (xs : List String) :
    ((l.view env restoring).2.map Prod.fst).Sorted (· ≤ ·) ∧
    ((l.view env restoring).1.entries).Perm l.entries ∧
    (GameListEntry.viewLines env true e =
      (sortedStrings e.files).filterMap
        (fun item => (env.gameFileRestorationTarget item).toOption) ++
        sortedStrings e.registryKeys) ∧
    (GameListEntry.viewLines env false e =
      sortedStrings e.files ++ sortedStrings e.registryKeys) ∧
    (sortedStrings xs).Sorted (· ≤ ·) ∧
    (sortedStrings xs).Perm xs ∧
    ((GameListEntry.viewLines env true e).length =
      (e.files.filter fun item =>
        (env.gameFileRestorationTarget item).toOption.isSome).length +
      e.registryKeys.length) := by
  refine ⟨?_, ?_, rfl, rfl, sortedStrings_sorted xs,
    List.mergeSort_perm xs strLe, ?_⟩
  · have h := @List.sorted_mergeSort _ entryLe entryLe_trans entryLe_total
      l.entries
    have h2 : List.Pairwise (fun a b : GameListEntry => a.name ≤ b.name)
        (l.entries.mergeSort entryLe) :=
      h.imp (fun {a b} hab => by
        simpa [entryLe, strLe, decide_eq_true_eq] using hab)
    simp only [GameList.view, List.map_map]
    show List.Pairwise (· ≤ ·) _
    rw [List.pairwise_map]
    exact h2
  · simpa [GameList.view] using List.mergeSort_perm l.entries entryLe
  · have hk : (sortedStrings e.registryKeys).length = e.registryKeys.length :=
      (List.mergeSort_perm e.registryKeys strLe).length_eq
    have hf2 : ((sortedStrings e.files).filter (fun item =>
        (env.gameFileRestorationTarget item).toOption.isSome)).length =
        (e.files.filter fun item =>
          (env.gameFileRestorationTarget item).toOption.isSome).length :=
      ((List.mergeSort_perm e.files strLe).filter _).length_eq
    simp only [GameListEntry.viewLines, if_pos, List.length_append]
    rw [length_filterMap_eq, hk, hf2]
